import Mathlib

/-!
Shallow embedding of `src/youtube_transcript_extractor.py` and proofs about it.

Conventions used throughout:
  * Python strings are modelled as `String` / `List Char`.
  * Python floats coming from the caption service are modelled as `ℚ`.
  * A Python function that may raise is modelled with `Except`; the error
    payload is the exception message (a `String`) where the code inspects it,
    and `Unit` where it does not.
  * External calls (the caption service) are modelled as explicit inputs.
-/

namespace YTE

/-! ## Python string primitives -/

/-- First-occurrence test: `sub in l` for Python strings (`occursIn sub l`
is `True` iff `sub` occurs as a contiguous substring of `l`; the empty
string occurs in everything, as in Python). -/
def occursIn (sub : List Char) : List Char → Bool
  | [] => sub.isEmpty
  | c :: rest => sub.isPrefixOf (c :: rest) || occursIn sub rest

/-- Prefix of `l` strictly before the first occurrence of `sep`
(the whole of `l` when `sep` does not occur). -/
def takeBeforeOcc (sep : List Char) : List Char → List Char
  | [] => []
  | c :: rest =>
    if sep.isPrefixOf (c :: rest) then []
    else c :: takeBeforeOcc sep rest

/-- Remainder of `l` strictly after the first occurrence of `sep`
(`none` when `sep` does not occur). -/
def afterFirstOcc (sep : List Char) : List Char → Option (List Char)
  | [] => none
  | c :: rest =>
    if sep.isPrefixOf (c :: rest) then some ((c :: rest).drop sep.length)
    else afterFirstOcc sep rest

/-- Fuel-indexed worker for `pySplit`; the fuel only serves structural
termination and is irrelevant once it is at least `l.length`. -/
def pySplitF (sep : List Char) : ℕ → List Char → List (List Char)
  | 0, l => [l]
  | _ + 1, [] => [[]]
  | fuel + 1, c :: rest =>
    if sep.isPrefixOf (c :: rest) then
      [] :: pySplitF sep fuel ((c :: rest).drop sep.length)
    else
      match pySplitF sep fuel rest with
      | [] => [[c]]
      | g :: gs => (c :: g) :: gs

/-- Python `s.split(sep)` for a non-empty separator: the list of maximal
fields between consecutive non-overlapping occurrences of `sep`, scanned
left to right. -/
def pySplit (sep l : List Char) : List (List Char) :=
  pySplitF sep l.length l

/-- Prefix of `l` before the first occurrence of `sep` or of the single
character `stopc`, whichever comes first.  Used to phrase amended claims
about `extract_video_id`. -/
def cutAtSepOrStop (sep : List Char) (stopc : Char) : List Char → List Char
  | [] => []
  | c :: rest =>
    if sep.isPrefixOf (c :: rest) then []
    else if c = stopc then []
    else c :: cutAtSepOrStop sep stopc rest

/-- Modelled from the spec's words (claims C5/C6): "the substring between
the first occurrence of the marker and the next stop character (or the end
of the string)". -/
def specAfterMarkerToStop (marker : List Char) (stopc : Char) (l : List Char) : List Char :=
  ((afterFirstOcc marker l).getD []).takeWhile (fun c => c ≠ stopc)

/-! ## The video id extractor (source lines 93-102) -/

/-- The characters of the query marker `"v="`. -/
def vMarker : List Char := ['v', '=']

/-- The characters of the short-link marker `"youtu.be/"`. -/
def beMarker : List Char := ['y', 'o', 'u', 't', 'u', '.', 'b', 'e', '/']

/-- Model of `extract_video_id` (source lines 93-102):
`url.split('v=')[1].split('&')[0]` when `'v=' in url`, else
`url.split('youtu.be/')[1].split('?')[0]` when `'youtu.be/' in url`, else
the url unchanged.  The Python body is wrapped in `try/except: return url`;
no sub-expression can raise here (both indexings are at position 0 or at
position 1 guarded by the containment test), so the model is total. -/
def extract_video_id (url : String) : String :=
  if occursIn vMarker url.data then
    ⟨(pySplit ['&'] ((pySplit vMarker url.data).getD 1 [])).getD 0 []⟩
  else if occursIn beMarker url.data then
    ⟨(pySplit ['?'] ((pySplit beMarker url.data).getD 1 [])).getD 0 []⟩
  else url

example : extract_video_id "https://www.youtube.com/watch?v=abc123&t=5" = "abc123" := by decide
example : extract_video_id "https://youtu.be/abc123?t=5" = "abc123" := by decide
example : extract_video_id "dQw4w9WgXcQ" = "dQw4w9WgXcQ" := by decide
example : extract_video_id "https://www.youtube.com/watch?v=abv=cd&t=5" = "ab" := by decide

/-! ## Python numeric primitives used at source lines 104-108 and 149-170 -/

/-- Python `int(x)` on a float/number: truncation toward zero. -/
def pyInt (q : ℚ) : ℤ := Int.tdiv q.num (q.den : ℤ)

/-- Round-half-to-even to the nearest integer, as Python's `round` does. -/
def roundHalfEven (q : ℚ) : ℤ :=
  let f := ⌊q⌋
  let r := q - (f : ℚ)
  if r < 1 / 2 then f
  else if 1 / 2 < r then f + 1
  else if f % 2 = 0 then f else f + 1

/-- Python `round(x, 1)`: round half to even at one decimal place.
(The source rounds Python floats; we model the values as rationals.) -/
def pyRound1 (q : ℚ) : ℚ := (roundHalfEven (q * 10) : ℚ) / 10

/-- Python `f"{n:02d}"`: decimal rendering left-padded with `0` to width 2
(the sign counts toward the width, exactly as in Python). -/
def pad2 (n : ℤ) : String :=
  if 0 ≤ n ∧ n < 10 then "0" ++ toString n else toString n

/-- Python `s.strip()`: drop leading and trailing whitespace. -/
def pyStrip (s : String) : String :=
  ⟨((s.data.dropWhile Char.isWhitespace).reverse.dropWhile Char.isWhitespace).reverse⟩

/-- Model of `format_time` (source lines 104-108): `HH:MM:SS` from seconds.
Python's `divmod` is floor division with a remainder that follows the
divisor's sign, i.e. `Int.fdiv`/`Int.fmod` for the positive divisor 60. -/
def format_time (seconds : ℚ) : String :=
  let total := pyInt seconds
  let secs := Int.fmod total 60
  let minutes := Int.fdiv total 60
  let mins := Int.fmod minutes 60
  let hours := Int.fdiv minutes 60
  pad2 hours ++ ":" ++ pad2 mins ++ ":" ++ pad2 secs

example : format_time 3725 = "01:02:05" := by decide
example : format_time 0 = "00:00:00" := by decide

/-! ## Data model of the transcript pipeline -/

/-- One raw caption entry as returned by the caption service: a Python dict
read with `entry['start']`, `entry.get('duration', 0)` and `entry['text']`.
A `none` field models a missing dict key (so `entry['start']` /
`entry['text']` raise `KeyError` and `entry.get('duration', 0)` yields 0). -/
structure RawEntry where
  start : Option ℚ
  duration : Option ℚ
  text : Option String
deriving DecidableEq, Repr

/-- The fetchable behavior of one caption-track handle: the outcome of
`handle.fetch()` and the combined outcome of `handle.translate('en').fetch()`
(an exception anywhere in the fallback route is recorded as `.error`).
The `.error` payload is the exception message `str(e)`. -/
structure TrackHandle where
  fetchResult : Except String (List RawEntry)
  translateEnFetchResult : Except String (List RawEntry)
deriving Repr

/-- One element of `st.session_state.available_transcripts`
(source lines 381-387): the dict with keys
`lang`, `language_name`, `is_generated`, `transcript`. -/
structure AvailableTranscript where
  lang : String
  language_name : String
  is_generated : Bool
  transcript : TrackHandle
deriving Repr

/-- One normalized transcript row, the dict built at source lines 155-170. -/
structure TranscriptRow where
  video_id : String
  start_time_seconds : ℚ
  end_time_seconds : ℚ
  start_time : ℚ
  end_time : ℚ
  timestamp : String
  end_timestamp : String
  duration : ℚ
  text : String
  youtube_link : String
  language : String
  language_name : String
  caption_type : String
  segment_number : ℕ
deriving DecidableEq, Repr

/-- The error-signature test at source line 129:
`"no element found" in str(e).lower()`. -/
def errIsNoElementFound (msg : String) : Bool :=
  occursIn "no element found".data (msg.data.map Char.toLower)

/-- Model of the inner try/except of `extract_transcript`
(source lines 122-146).  Returns the number of fallback
(translate-to-English) fetch attempts made, paired with the value bound to
`transcript` when control reaches the `if not transcript: continue` line:
`none` means the track was given up on (either `continue` was executed in
the inner handler, or `transcript` stayed `None` on an unrecognized error). -/
def attemptFetch (sel : AvailableTranscript) : ℕ × Option (List RawEntry) :=
  match sel.transcript.fetchResult with
  | .ok entries => (0, some entries)
  | .error e =>
    if errIsNoElementFound e then
      if sel.lang ≠ "en" then
        match sel.transcript.translateEnFetchResult with
        | .ok entries => (1, some entries)
        | .error _ => (1, none)
      else (0, none)
    else (0, none)

/-- Processing of one caption entry at 0-based position `i` of a track
(source lines 149-171).  A missing `'start'` or `'text'` key raises a
`KeyError`, which is not caught by any inner handler and escapes to the
outer `except` of `extract_transcript`; this is the `.error` case. -/
def processEntry (video_id : String) (sel : AvailableTranscript) (i : ℕ)
    (entry : RawEntry) : Except Unit TranscriptRow :=
  match entry.start with
  | none => .error ()
  | some start_time =>
    let duration := entry.duration.getD 0
    let end_time := start_time + duration
    match entry.text with
    | none => .error ()
    | some rawText =>
      .ok {
        video_id := video_id
        start_time_seconds := start_time
        end_time_seconds := end_time
        start_time := pyRound1 start_time
        end_time := pyRound1 end_time
        timestamp := format_time start_time
        end_timestamp := format_time end_time
        duration := pyRound1 duration
        text := pyStrip rawText
        youtube_link := "https://www.youtube.com/watch?v=" ++ video_id
          ++ "&t=" ++ toString (pyInt start_time)
        language := sel.lang
        language_name := sel.language_name
        caption_type := if sel.is_generated then "Auto-generated" else "Manual"
        segment_number := i + 1 }

/-- The `for i, entry in enumerate(transcript)` loop (source line 149),
with `i` starting at the given index; rows are appended in entry order and
an escaping exception aborts the whole loop. -/
def processEntries (video_id : String) (sel : AvailableTranscript) :
    ℕ → List RawEntry → Except Unit (List TranscriptRow)
  | _, [] => .ok []
  | i, e :: es =>
    match processEntry video_id sel i e with
    | .error u => .error u
    | .ok row =>
      match processEntries video_id sel (i + 1) es with
      | .error u => .error u
      | .ok rows => .ok (row :: rows)

/-- The per-track body of `extract_transcript`'s main loop: the rows this
track contributes.  `attemptFetch` yielding `none` is the `continue` path
(no rows); note `if not transcript: continue` on an empty entry list also
yields no rows, exactly like iterating the empty list. -/
def processTrackRows (video_id : String) (sel : AvailableTranscript) :
    Except Unit (List TranscriptRow) :=
  match (attemptFetch sel).2 with
  | none => .ok []
  | some entries => processEntries video_id sel 0 entries

/-- The `for selected_index in selected_transcripts` loop (source lines
117-171) inside the outer `try`.  `avail[k]?` failing models the
`IndexError` from `st.session_state.available_transcripts[selected_index]`,
which also escapes to the outer `except`. -/
def extractLoop (avail : List AvailableTranscript) (video_id : String) :
    List ℕ → Except Unit (List TranscriptRow)
  | [] => .ok []
  | k :: rest =>
    match avail[k]? with
    | none => .error ()
    | some sel =>
      match processTrackRows video_id sel with
      | .error u => .error u
      | .ok rows =>
        match extractLoop avail video_id rest with
        | .error u => .error u
        | .ok more => .ok (rows ++ more)

/-- Model of `extract_transcript` (source lines 111-177): the outer
`try/except` returns the accumulated rows on success and `[]` when any
exception escapes the per-track handling (discarding rows already
collected). -/
def extract_transcript (avail : List AvailableTranscript) (video_id : String)
    (selected : List ℕ) : List TranscriptRow :=
  match extractLoop avail video_id selected with
  | .ok rows => rows
  | .error _ => []

/-! ## The caption catalog lookup (source lines 300-322) -/

/-- One track handle as yielded by the external
`YouTubeTranscriptApi.list_transcripts` iterable, restricted to the
attributes the catalog lookup reads. -/
structure ServiceTranscript where
  language : String
  language_code : String
  is_generated : Bool
deriving DecidableEq, Repr

/-- The `caption_info` dict built at source lines 309-313. -/
structure CaptionInfo where
  language : String
  language_code : String
  type : String
deriving DecidableEq, Repr

/-- The dict built from one service track (source lines 309-313). -/
def mkCaptionInfo (t : ServiceTranscript) : CaptionInfo :=
  { language := t.language
    language_code := t.language_code
    type := if t.is_generated then "Auto-generated" else "Manual" }

/-- The partitioning loop of `check_available_captions`
(source lines 308-318): appends each track's info to the auto or the
manual list, preserving the service's iteration order. -/
def partitionCaptions : List ServiceTranscript → List CaptionInfo × List CaptionInfo
  | [] => ([], [])
  | t :: ts =>
    let (manual, auto) := partitionCaptions ts
    if t.is_generated then (manual, mkCaptionInfo t :: auto)
    else (mkCaptionInfo t :: manual, auto)

/-- Model of `check_available_captions` (source lines 300-322): the external
call `YouTubeTranscriptApi.list_transcripts(video_id)` is modelled as the
function argument `service`; any exception it raises (network error, video
not found, captions disabled) is the `.error` case, turned into two empty
lists by the `except` handler. -/
def check_available_captions
    (service : String → Except String (List ServiceTranscript))
    (video_id : String) : List CaptionInfo × List CaptionInfo :=
  match service video_id with
  | .error _ => ([], [])
  | .ok ts => partitionCaptions ts

/-! ## The export formatter (source lines 179-297) -/

/-- First-occurrence-order deduplication with an accumulator of values
already seen; models Python's `list(set(xs))` as a canonical ordering of
the distinct elements (CPython's set iteration order is unspecified, so the
model fixes the order of first occurrence; no claim depends on the order). -/
def dedupFirstAux (seen : List String) : List String → List String
  | [] => []
  | x :: xs =>
    if seen.contains x then dedupFirstAux seen xs
    else x :: dedupFirstAux (x :: seen) xs

/-- Python `"_".join(xs)`. -/
def joinUnderscore : List String → String
  | [] => ""
  | [x] => x
  | x :: y :: ys => x ++ "_" ++ joinUnderscore (y :: ys)

/-- The `language_str` computation repeated at source lines 217-218,
251-252 and 283-284: the distinct language codes of the rows joined with
underscores when there are at most 3, else `f"{len(languages)}languages"`. -/
def languageStr (langs : List String) : String :=
  let distinct := dedupFirstAux [] langs
  if distinct.length ≤ 3 then joinUnderscore distinct
  else toString distinct.length ++ "languages"

/-- The `video_title_clean` computation (source lines 214, 249, 281):
`video_title.replace(' ', '_')[:50]`. -/
def cleanTitle (title : String) : String :=
  ⟨((title.data.map fun c => if c = ' ' then '_' else c).take 50)⟩

/-- The `simple_data` record built at source lines 237-243. -/
structure SimpleRecord where
  timestamp : String
  language : String
  text : String
  youtube_link : String
  video_id : String
deriving DecidableEq, Repr

/-- The `timeline_data` record built at source lines 271-275. -/
structure TimelineRecord where
  time : String
  language : String
  text : String
deriving DecidableEq, Repr

/-- One downloadable artifact: its filename and its tabular data.  The
byte-level CSV serialization (`pandas.DataFrame.to_csv` with the
`utf-8-sig` encoding) is delegated to pandas in the source and is not
re-modelled; the payload carries the records the data frame is built from. -/
structure ExportPayload (α : Type) where
  filename : String
  records : List α
deriving Repr

/-- The three download payloads offered by `save_transcript_options`. -/
structure SaveOutputs where
  full : ExportPayload TranscriptRow
  simple : ExportPayload SimpleRecord
  timeline : ExportPayload TimelineRecord
deriving Repr

/-- Column projection for the simple format (source lines 236-243). -/
def toSimpleRecord (r : TranscriptRow) : SimpleRecord :=
  { timestamp := r.timestamp
    language := r.language_name
    text := r.text
    youtube_link := r.youtube_link
    video_id := r.video_id }

/-- Column projection for the timeline format (source lines 270-275). -/
def toTimelineRecord (r : TranscriptRow) : TimelineRecord :=
  { time := r.timestamp
    language := r.language_name
    text := r.text }

/-- Model of `save_transcript_options` (source lines 180-297): `none` when
the row list is empty (`if not transcript_data: return None`), otherwise
the three download payloads.  The `now` argument stands for the
`datetime.now().strftime("%Y%m%d_%H%M%S")` timestamp; the source formats it
once per column block, all within the same call, modelled as one instant.
The full format reorders the data-frame columns without dropping rows, so
its records are the rows themselves. -/
def save_transcript_options (transcript_data : List TranscriptRow)
    (video_title : String) (now : String) : Option SaveOutputs :=
  if transcript_data.isEmpty then none
  else
    let language_str := languageStr (transcript_data.map fun r => r.language)
    let video_title_clean := cleanTitle video_title
    some {
      full :=
        { filename := "full_transcript_" ++ language_str ++ "_"
            ++ video_title_clean ++ "_" ++ now ++ ".csv"
          records := transcript_data }
      simple :=
        { filename := "simple_transcript_" ++ language_str ++ "_"
            ++ video_title_clean ++ "_" ++ now ++ ".csv"
          records := transcript_data.map toSimpleRecord }
      timeline :=
        { filename := "timeline_" ++ language_str ++ "_"
            ++ video_title_clean ++ "_" ++ now ++ ".csv"
          records := transcript_data.map toTimelineRecord } }

/-! ## Per-track view of the extraction loop, and concrete sample data -/

/-- The rows one selected index contributes inside `extract_transcript`'s
main loop: resolving the index in the session list (a failure is the
`IndexError`) followed by the per-track fetch-and-normalize. -/
def trackBlock (avail : List AvailableTranscript) (vid : String) (k : ℕ) :
    Except Unit (List TranscriptRow) :=
  match avail[k]? with
  | none => .error ()
  | some sel => processTrackRows vid sel

/-- The ordered list of per-track row blocks for a selection, with any
escaping exception aborting the whole computation. -/
def trackBlocks (avail : List AvailableTranscript) (vid : String) :
    List ℕ → Except Unit (List (List TranscriptRow))
  | [] => .ok []
  | k :: ks =>
    match trackBlock avail vid k with
    | .error u => .error u
    | .ok b =>
      match trackBlocks avail vid ks with
      | .error u => .error u
      | .ok bs => .ok (b :: bs)

/-- Sample caption entry: explicit start, duration and text. -/
def wEntryA : RawEntry := { start := some 0, duration := some 1, text := some " hi " }

/-- Sample caption entry with an absent duration key. -/
def wEntryB : RawEntry := { start := some (5 / 2), duration := none, text := some "yo" }

/-- A handle whose direct fetch succeeds with the given entries. -/
def wHandleOk (es : List RawEntry) : TrackHandle :=
  { fetchResult := .ok es, translateEnFetchResult := .error "unused" }

/-- Sample manual English track with two entries. -/
def wTrackEn : AvailableTranscript :=
  { lang := "en", language_name := "English", is_generated := false
    transcript := wHandleOk [wEntryA, wEntryB] }

/-- Sample auto-generated Spanish track with one entry. -/
def wTrackEs : AvailableTranscript :=
  { lang := "es", language_name := "Spanish", is_generated := true
    transcript := wHandleOk [wEntryB] }

/-- Sample German track whose direct fetch fails with the parse/empty
signature and whose English-translation fallback succeeds. -/
def wTrackDe : AvailableTranscript :=
  { lang := "de", language_name := "German", is_generated := false
    transcript := { fetchResult := .error "no element found: line 1, column 0"
                    translateEnFetchResult := .ok [wEntryA] } }

/-- Sample English track whose direct fetch fails with the parse/empty
signature; being already in the pivot language, no fallback is eligible. -/
def wTrackEnFail : AvailableTranscript :=
  { lang := "en", language_name := "English", is_generated := false
    transcript := { fetchResult := .error "no element found"
                    translateEnFetchResult := .ok [wEntryA] } }

/-- Sample session catalog. -/
def wAvail : List AvailableTranscript := [wTrackEn, wTrackEs, wTrackDe, wTrackEnFail]

/-- The rows the sample English track contributes. -/
def wRowsEn : List TranscriptRow :=
  match processTrackRows "vid01" wTrackEn with
  | .ok rows => rows
  | .error _ => []

/-- The per-track blocks of selecting the first two sample tracks. -/
def wBlocks : List (List TranscriptRow) :=
  match trackBlocks wAvail "vid01" [0, 1] with
  | .ok bs => bs
  | .error _ => []

/-- Sample caption service: one video id is known, all others fail. -/
def wService : String → Except String (List ServiceTranscript) :=
  fun vid =>
    if vid = "ok" then
      .ok [{ language := "English", language_code := "en", is_generated := false },
           { language := "Spanish", language_code := "es", is_generated := true }]
    else .error "no transcripts were found"

/-- A minimal normalized row carrying a given language code. -/
def mkRowLang (lang : String) : TranscriptRow :=
  { video_id := "v", start_time_seconds := 0, end_time_seconds := 0, start_time := 0
    end_time := 0, timestamp := "00:00:00", end_timestamp := "00:00:00", duration := 0
    text := "t", youtube_link := "u", language := lang, language_name := lang
    caption_type := "Manual", segment_number := 1 }

/-! ## Lemmas about the split primitives -/

lemma pySplitF_ne_nil (sep : List Char) (fuel : ℕ) (l : List Char) :
    pySplitF sep fuel l ≠ [] := by
  cases fuel with
  | zero => simp [pySplitF]
  | succ f =>
    cases l with
    | nil => simp [pySplitF]
    | cons c rest =>
      simp only [pySplitF]
      by_cases hp : sep.isPrefixOf (c :: rest) = true
      · rw [if_pos hp]; simp
      · rw [if_neg hp]
        cases hm : pySplitF sep f rest <;> simp

lemma sep_length_pos (sep : List Char) (hsep : sep ≠ []) : 1 ≤ sep.length := by
  cases sep with
  | nil => exact absurd rfl hsep
  | cons s ss => simp

lemma pySplitF_fuel (sep : List Char) (hsep : sep ≠ []) :
    ∀ (f₁ f₂ : ℕ) (l : List Char), l.length ≤ f₁ → l.length ≤ f₂ →
      pySplitF sep f₁ l = pySplitF sep f₂ l := by
  intro f₁
  induction f₁ with
  | zero =>
    intro f₂ l h1 _
    have hl : l = [] := by
      cases l with
      | nil => rfl
      | cons c r => simp at h1
    subst hl
    cases f₂ <;> rfl
  | succ f ih =>
    intro f₂ l h1 h2
    cases l with
    | nil => cases f₂ <;> rfl
    | cons c rest =>
      cases f₂ with
      | zero => simp at h2
      | succ f₂' =>
        have hsl := sep_length_pos sep hsep
        simp only [List.length_cons] at h1 h2
        simp only [pySplitF]
        by_cases hp : sep.isPrefixOf (c :: rest) = true
        · rw [if_pos hp, if_pos hp]
          have hd : ((c :: rest).drop sep.length).length = rest.length + 1 - sep.length := by
            simp [List.length_drop]
          rw [ih f₂' ((c :: rest).drop sep.length) (by omega) (by omega)]
        · rw [if_neg hp, if_neg hp]
          rw [ih f₂' rest (by omega) (by omega)]

lemma pySplitF_getD0 (sep : List Char) :
    ∀ (fuel : ℕ) (l : List Char), l.length ≤ fuel →
      (pySplitF sep fuel l).getD 0 [] = takeBeforeOcc sep l := by
  intro fuel
  induction fuel with
  | zero =>
    intro l h
    have hl : l = [] := by
      cases l with
      | nil => rfl
      | cons c r => simp at h
    subst hl
    simp [pySplitF, takeBeforeOcc]
  | succ f ih =>
    intro l h
    cases l with
    | nil => simp [pySplitF, takeBeforeOcc]
    | cons c rest =>
      simp only [List.length_cons] at h
      simp only [pySplitF, takeBeforeOcc]
      by_cases hp : sep.isPrefixOf (c :: rest) = true
      · rw [if_pos hp, if_pos hp]; simp
      · rw [if_neg hp, if_neg hp]
        cases hm : pySplitF sep f rest with
        | nil => exact absurd hm (pySplitF_ne_nil sep f rest)
        | cons g gs =>
          have hih := ih rest (by omega)
          rw [hm] at hih
          simp only [List.getD_cons_zero] at hih
          simp [hih]

lemma pySplitF_getD1 (sep : List Char) (hsep : sep ≠ []) :
    ∀ (fuel : ℕ) (l : List Char), l.length ≤ fuel → occursIn sep l = true →
      (pySplitF sep fuel l).getD 1 [] =
        takeBeforeOcc sep ((afterFirstOcc sep l).getD []) := by
  intro fuel
  induction fuel with
  | zero =>
    intro l hlen hocc
    have hl : l = [] := by
      cases l with
      | nil => rfl
      | cons c r => simp at hlen
    subst hl
    simp only [occursIn, List.isEmpty_iff] at hocc
    exact absurd hocc hsep
  | succ f ih =>
    intro l hlen hocc
    cases l with
    | nil =>
      simp only [occursIn, List.isEmpty_iff] at hocc
      exact absurd hocc hsep
    | cons c rest =>
      have hsl := sep_length_pos sep hsep
      simp only [List.length_cons] at hlen
      simp only [pySplitF, afterFirstOcc]
      by_cases hp : sep.isPrefixOf (c :: rest) = true
      · rw [if_pos hp, if_pos hp]
        have hd : ((c :: rest).drop sep.length).length = rest.length + 1 - sep.length := by
          simp [List.length_drop]
        have h0 := pySplitF_getD0 sep f ((c :: rest).drop sep.length) (by omega)
        simpa using h0
      · rw [if_neg hp, if_neg hp]
        have hro : occursIn sep rest = true := by
          simp only [occursIn, Bool.or_eq_true] at hocc
          rcases hocc with hocc | hocc
          · exact absurd hocc hp
          · exact hocc
        cases hm : pySplitF sep f rest with
        | nil => exact absurd hm (pySplitF_ne_nil sep f rest)
        | cons g gs =>
          have hih := ih rest (by omega) hro
          rw [hm] at hih
          simpa using hih

lemma pySplit_getD0 (sep : List Char) (l : List Char) :
    (pySplit sep l).getD 0 [] = takeBeforeOcc sep l :=
  pySplitF_getD0 sep l.length l le_rfl

lemma pySplit_getD1 (sep : List Char) (hsep : sep ≠ []) (l : List Char)
    (hocc : occursIn sep l = true) :
    (pySplit sep l).getD 1 [] = takeBeforeOcc sep ((afterFirstOcc sep l).getD []) :=
  pySplitF_getD1 sep hsep l.length l le_rfl hocc

lemma takeBeforeOcc_single (sep : List Char) (d : Char) (r : List Char) :
    takeBeforeOcc [d] (takeBeforeOcc sep r) = cutAtSepOrStop sep d r := by
  induction r with
  | nil => rfl
  | cons c rest ih =>
    simp only [takeBeforeOcc, cutAtSepOrStop]
    by_cases hp : sep.isPrefixOf (c :: rest) = true
    · rw [if_pos hp, if_pos hp]; rfl
    · rw [if_neg hp, if_neg hp]
      simp only [takeBeforeOcc, List.isPrefixOf]
      by_cases hc : c = d
      · subst hc; simp
      · have hbeq : (d == c) = false := by
          simp [beq_iff_eq]
          exact fun h => hc h.symm
        simp [hbeq, hc, ih]

/-! ## Claims C5 and C6: the video id extractor -/

/-- Claim C5, as stated: for every input containing `'v='`,
`extract_video_id` returns exactly the substring between the first `'v='`
and the next `'&'` (or end of string).  This is false: `url.split('v=')[1]`
also stops at the next occurrence of `'v='`.  At the input
`https://www.youtube.com/watch?v=abv=cd&t=5` the code yields `ab` while the
claimed value is `abv=cd`. -/
theorem claim_C5_counterexample :
    extract_video_id "https://www.youtube.com/watch?v=abv=cd&t=5" = "ab" ∧
    specAfterMarkerToStop vMarker '&'
      "https://www.youtube.com/watch?v=abv=cd&t=5".data = "abv=cd".data ∧
    ("ab" : String) ≠ "abv=cd" := by
  refine ⟨by decide, by decide, by decide⟩

/-- Claim C5, amended: for every input string containing `'v='`,
`extract_video_id` returns the substring after the first `'v='` up to the
next occurrence of `'v='` or `'&'`, whichever comes first (or the end of
the string when neither follows).  On the spec's example
`https://www.youtube.com/watch?v=abc123&t=5` this yields `abc123`. -/
theorem claim_C5_amended (url : String) (h : occursIn vMarker url.data = true) :
    extract_video_id url =
      ⟨cutAtSepOrStop vMarker '&' ((afterFirstOcc vMarker url.data).getD [])⟩ := by
  unfold extract_video_id
  rw [if_pos h]
  have h0 := pySplit_getD0 ['&'] ((pySplit vMarker url.data).getD 1 [])
  rw [h0, pySplit_getD1 vMarker (by decide) url.data h, takeBeforeOcc_single]

theorem claim_C5_witness :
    extract_video_id "https://www.youtube.com/watch?v=abc123&t=5" = "abc123" := by
  have h := claim_C5_amended "https://www.youtube.com/watch?v=abc123&t=5" (by decide)
  rw [h]
  decide

/-- Claim C6, as stated: for inputs without `'v='` containing `'youtu.be/'`,
the result is the substring after that marker up to the next `'?'` (or end
of string).  This is false for the same reason as C5:
`url.split('youtu.be/')[1]` also stops at the next occurrence of
`'youtu.be/'`.  At the input `youtu.be/youtu.be/ab?t=1` the code yields the
empty string while the claimed value is `youtu.be/ab`. -/
theorem claim_C6_counterexample :
    extract_video_id "youtu.be/youtu.be/ab?t=1" = "" ∧
    occursIn vMarker "youtu.be/youtu.be/ab?t=1".data = false ∧
    specAfterMarkerToStop beMarker '?' "youtu.be/youtu.be/ab?t=1".data
      = "youtu.be/ab".data ∧
    ("" : String) ≠ "youtu.be/ab" := by
  refine ⟨by decide, by decide, by decide, by decide⟩

/-- Claim C6, amended: for every input string not containing `'v='`: if it
contains `'youtu.be/'` the result is the substring after the first
`'youtu.be/'` up to the next occurrence of `'youtu.be/'` or `'?'`,
whichever comes first (or the end of the string); otherwise the input is
returned unchanged.  `extract_video_id` is a total function, so it never
raises (the source's `try/except` falls back to the original string; in
this model no branch can fail at all). -/
theorem claim_C6_amended (url : String) :
    (occursIn vMarker url.data = false → occursIn beMarker url.data = true →
      extract_video_id url =
        ⟨cutAtSepOrStop beMarker '?' ((afterFirstOcc beMarker url.data).getD [])⟩) ∧
    (occursIn vMarker url.data = false → occursIn beMarker url.data = false →
      extract_video_id url = url) := by
  constructor
  · intro hv hb
    unfold extract_video_id
    rw [if_neg (by simp [hv]), if_pos hb]
    have h0 := pySplit_getD0 ['?'] ((pySplit beMarker url.data).getD 1 [])
    rw [h0, pySplit_getD1 beMarker (by decide) url.data hb, takeBeforeOcc_single]
  · intro hv hb
    unfold extract_video_id
    rw [if_neg (by simp [hv]), if_neg (by simp [hb])]

theorem claim_C6_witness :
    extract_video_id "https://youtu.be/abc123?t=5" = "abc123" ∧
    extract_video_id "dQw4w9WgXcQ" = "dQw4w9WgXcQ" := by
  constructor
  · have h := (claim_C6_amended "https://youtu.be/abc123?t=5").1 (by decide) (by decide)
    rw [h]
    decide
  · exact (claim_C6_amended "dQw4w9WgXcQ").2 (by decide) (by decide)

/-! ## Lemmas about the transcript pipeline -/

lemma processEntry_ok_fields (vid : String) (sel : AvailableTranscript) (i : ℕ)
    (entry : RawEntry) (r : TranscriptRow)
    (h : processEntry vid sel i entry = .ok r) :
    r.segment_number = i + 1 ∧
    r.end_time_seconds = r.start_time_seconds + entry.duration.getD 0 := by
  cases hs : entry.start with
  | none => simp [processEntry, hs] at h
  | some st =>
    cases ht : entry.text with
    | none => simp [processEntry, hs, ht] at h
    | some tx =>
      simp only [processEntry, hs, ht, Except.ok.injEq] at h
      subst h
      exact ⟨rfl, rfl⟩

lemma processEntries_ok_spec (vid : String) (sel : AvailableTranscript) :
    ∀ (es : List RawEntry) (i : ℕ) (rows : List TranscriptRow),
      processEntries vid sel i es = .ok rows →
      rows.map (fun r => r.segment_number)
        = (List.range es.length).map (fun j => i + j + 1) ∧
      ∀ r ∈ rows, ∃ e ∈ es,
        r.end_time_seconds = r.start_time_seconds + e.duration.getD 0 := by
  intro es
  induction es with
  | nil =>
    intro i rows h
    simp only [processEntries, Except.ok.injEq] at h
    subst h
    simp
  | cons e es ih =>
    intro i rows h
    simp only [processEntries] at h
    cases he : processEntry vid sel i e with
    | error u => rw [he] at h; simp at h
    | ok row =>
      rw [he] at h
      cases hm : processEntries vid sel (i + 1) es with
      | error u => rw [hm] at h; simp at h
      | ok rest =>
        rw [hm] at h
        simp only [Except.ok.injEq] at h
        subst h
        obtain ⟨hmap, hmem⟩ := ih (i + 1) rest hm
        obtain ⟨hseg, hend⟩ := processEntry_ok_fields vid sel i e row he
        constructor
        · simp only [List.map_cons, List.length_cons, List.range_succ_eq_map,
            List.map_map]
          rw [hseg, hmap]
          have hfun : ((fun j => i + j + 1) ∘ Nat.succ) = (fun j => i + 1 + j + 1) := by
            funext j
            simp [Function.comp]
            omega
          rw [hfun]
        · intro r hr
          rcases List.mem_cons.mp hr with hr | hr
          · exact ⟨e, List.mem_cons_self e es, by rw [hr]; exact hend⟩
          · obtain ⟨e', he', heq⟩ := hmem r hr
            exact ⟨e', List.mem_cons_of_mem e he', heq⟩

lemma processTrackRows_segments (vid : String) (sel : AvailableTranscript)
    (rows : List TranscriptRow) (h : processTrackRows vid sel = .ok rows) :
    rows.map (fun r => r.segment_number)
      = (List.range rows.length).map (fun j => j + 1) := by
  unfold processTrackRows at h
  cases ha : (attemptFetch sel).2 with
  | none =>
    rw [ha] at h
    simp only [Except.ok.injEq] at h
    subst h
    simp
  | some entries =>
    rw [ha] at h
    have hspec := (processEntries_ok_spec vid sel entries 0 rows h).1
    have hlen : rows.length = entries.length := by
      have := congrArg List.length hspec
      simpa using this
    rw [hlen]
    simpa using hspec

lemma extractLoop_eq_trackBlocks (avail : List AvailableTranscript) (vid : String) :
    ∀ selected : List ℕ, extractLoop avail vid selected =
      match trackBlocks avail vid selected with
      | .ok bs => .ok bs.flatten
      | .error u => .error u := by
  intro selected
  induction selected with
  | nil => rfl
  | cons k ks ih =>
    simp only [extractLoop, trackBlocks, trackBlock]
    cases hk : avail[k]? with
    | none => rfl
    | some sel =>
      dsimp only
      cases hp : processTrackRows vid sel with
      | error u => rfl
      | ok rows =>
        dsimp only
        rw [ih]
        cases hb : trackBlocks avail vid ks with
        | error u => rfl
        | ok bs => simp

lemma trackBlocks_mem (avail : List AvailableTranscript) (vid : String) :
    ∀ (selected : List ℕ) (blocks : List (List TranscriptRow)),
      trackBlocks avail vid selected = .ok blocks →
      ∀ b ∈ blocks, ∃ sel, processTrackRows vid sel = .ok b := by
  intro selected
  induction selected with
  | nil =>
    intro blocks h b hb
    simp only [trackBlocks, Except.ok.injEq] at h
    subst h
    simp at hb
  | cons k ks ih =>
    intro blocks h b hb
    simp only [trackBlocks] at h
    cases hk : trackBlock avail vid k with
    | error u => rw [hk] at h; simp at h
    | ok b0 =>
      rw [hk] at h
      cases hm : trackBlocks avail vid ks with
      | error u => rw [hm] at h; simp at h
      | ok bs =>
        rw [hm] at h
        simp only [Except.ok.injEq] at h
        subst h
        rcases List.mem_cons.mp hb with hb | hb
        · subst hb
          unfold trackBlock at hk
          cases hsel : avail[k]? with
          | none => rw [hsel] at hk; simp at hk
          | some sel => rw [hsel] at hk; exact ⟨sel, hk⟩
        · exact ih bs hm b hb

lemma extractLoop_append (avail : List AvailableTranscript) (vid : String)
    (xs ys : List ℕ) :
    extractLoop avail vid (xs ++ ys) =
      match extractLoop avail vid xs with
      | .error u => .error u
      | .ok a =>
        match extractLoop avail vid ys with
        | .error u => .error u
        | .ok b => .ok (a ++ b) := by
  induction xs with
  | nil =>
    simp only [List.nil_append, extractLoop]
    cases extractLoop avail vid ys <;> rfl
  | cons k ks ih =>
    simp only [List.cons_append, extractLoop]
    cases hk : avail[k]? with
    | none => rfl
    | some sel =>
      dsimp only
      cases hp : processTrackRows vid sel with
      | error u => rfl
      | ok rows =>
        dsimp only
        simp only [List.append_eq]
        rw [ih]
        cases hks : extractLoop avail vid ks with
        | error u => rfl
        | ok a =>
          cases hys : extractLoop avail vid ys with
          | error u => rfl
          | ok b => simp

lemma processEntries_error_of_malformed (vid : String) (sel : AvailableTranscript) :
    ∀ (es : List RawEntry) (i : ℕ),
      (∃ e ∈ es, e.start = none ∨ e.text = none) →
      processEntries vid sel i es = .error () := by
  intro es
  induction es with
  | nil =>
    intro i h
    simp at h
  | cons e es ih =>
    intro i h
    by_cases hm : e.start = none ∨ e.text = none
    · have hpe : processEntry vid sel i e = .error () := by
        rcases hm with hs | ht
        · simp [processEntry, hs]
        · cases hs : e.start with
          | none => simp [processEntry, hs]
          | some st => simp [processEntry, hs, ht]
      simp [processEntries, hpe]
    · obtain ⟨e', he', hmal⟩ := h
      rcases List.mem_cons.mp he' with rfl | he'
      · exact absurd hmal hm
      · simp only [processEntries]
        cases hp : processEntry vid sel i e with
        | error u => cases u; rfl
        | ok row => rw [ih (i + 1) ⟨e', he', hmal⟩]

/-! ## Claims C1-C4 and C10: the transcript normalizer -/

/-- Claim C1: when the direct fetch of a selected track fails, then
(a) if the error message carries the `no element found` signature and the
track's language is not the pivot `en`, exactly one fallback fetch of the
English translation is attempted, and its entries (when it succeeds)
become the track's transcript; (b) if the language already is `en`, no
fallback fetch is attempted and the track is given up on; (c) any other
error class skips the track with no rows; and (d) a skipped track
contributes nothing while the remaining selected tracks are still
processed exactly as if it had not been selected. -/
theorem claim_C1 (sel : AvailableTranscript) (e : String)
    (hfail : sel.transcript.fetchResult = .error e) :
    (errIsNoElementFound e = true → sel.lang ≠ "en" →
      (attemptFetch sel).1 = 1 ∧
      (attemptFetch sel).2 = sel.transcript.translateEnFetchResult.toOption) ∧
    (errIsNoElementFound e = true → sel.lang = "en" →
      attemptFetch sel = (0, none)) ∧
    (errIsNoElementFound e = false → attemptFetch sel = (0, none)) ∧
    (∀ (vid : String) (avail : List AvailableTranscript) (k : ℕ) (rest : List ℕ),
      avail[k]? = some sel → (attemptFetch sel).2 = none →
      extract_transcript avail vid (k :: rest) = extract_transcript avail vid rest) := by
  refine ⟨?_, ?_, ?_, ?_⟩
  · intro hsig hlang
    unfold attemptFetch
    rw [hfail]
    simp only [hsig, if_pos hlang, if_true]
    cases sel.transcript.translateEnFetchResult <;> simp [Except.toOption]
  · intro hsig hlang
    unfold attemptFetch
    rw [hfail]
    simp [hsig, hlang]
  · intro hsig
    unfold attemptFetch
    rw [hfail]
    simp [hsig]
  · intro vid avail k rest hk hnone
    have hrows : processTrackRows vid sel = .ok [] := by
      unfold processTrackRows
      rw [hnone]
    unfold extract_transcript
    simp only [extractLoop]
    rw [hk]
    dsimp only
    rw [hrows]
    cases hrest : extractLoop avail vid rest <;> simp

theorem claim_C1_witness :
    (attemptFetch wTrackDe).1 = 1 ∧
    (attemptFetch wTrackDe).2 = some [wEntryA] ∧
    attemptFetch wTrackEnFail = (0, none) ∧
    extract_transcript wAvail "vid01" [3, 0] = extract_transcript wAvail "vid01" [0] := by
  have h1 := claim_C1 wTrackDe "no element found: line 1, column 0" rfl
  have h2 := claim_C1 wTrackEnFail "no element found" rfl
  refine ⟨(h1.1 (by decide) (by decide)).1, ?_, h2.2.1 (by decide) rfl, ?_⟩
  · rw [(h1.1 (by decide) (by decide)).2]
    rfl
  · exact h2.2.2.2 "vid01" wAvail 3 [0] rfl rfl

/-- Claim C2: for a successfully fetched track whose entries all have a
nonnegative (or absent, hence defaulted-to-0) duration, every produced row
satisfies `endSeconds ≥ startSeconds`, and the rows' segment indices form
exactly the contiguous sequence `1..N` where `N` is the number of entries
of the track. -/
theorem claim_C2 (vid : String) (sel : AvailableTranscript)
    (entries : List RawEntry) (rows : List TranscriptRow)
    (hfetch : (attemptFetch sel).2 = some entries)
    (hdur : ∀ e ∈ entries, 0 ≤ e.duration.getD 0)
    (hrows : processTrackRows vid sel = .ok rows) :
    (∀ r ∈ rows, r.start_time_seconds ≤ r.end_time_seconds) ∧
    rows.map (fun r => r.segment_number)
      = (List.range entries.length).map (fun j => j + 1) := by
  unfold processTrackRows at hrows
  rw [hfetch] at hrows
  obtain ⟨hmap, hmem⟩ := processEntries_ok_spec vid sel entries 0 rows hrows
  constructor
  · intro r hr
    obtain ⟨e, he, heq⟩ := hmem r hr
    rw [heq]
    have := hdur e he
    linarith
  · simpa using hmap

theorem claim_C2_witness :
    (∀ r ∈ wRowsEn, r.start_time_seconds ≤ r.end_time_seconds) ∧
    wRowsEn.map (fun r => r.segment_number) = [1, 2] := by
  have h := claim_C2 "vid01" wTrackEn [wEntryA, wEntryB] wRowsEn rfl (by decide) rfl
  refine ⟨h.1, ?_⟩
  rw [h.2]
  rfl

/-- Claim C3: whenever every selected track is resolved and processed
without an escaping exception, the extraction result is exactly the
concatenation of the per-track row blocks in selection order, and each
block is internally ordered by ascending segment index `1..len(block)`
(the entries' given order); no cross-track re-sorting or merging occurs. -/
theorem claim_C3 (avail : List AvailableTranscript) (vid : String)
    (selected : List ℕ) (blocks : List (List TranscriptRow))
    (h : trackBlocks avail vid selected = .ok blocks) :
    extract_transcript avail vid selected = blocks.flatten ∧
    ∀ b ∈ blocks, b.map (fun r => r.segment_number)
      = (List.range b.length).map (fun j => j + 1) := by
  constructor
  · unfold extract_transcript
    rw [extractLoop_eq_trackBlocks, h]
  · intro b hb
    obtain ⟨sel, hsel⟩ := trackBlocks_mem avail vid selected blocks h b hb
    exact processTrackRows_segments vid sel b hsel

theorem claim_C3_witness :
    trackBlocks wAvail "vid01" [0, 1] = .ok wBlocks ∧
    extract_transcript wAvail "vid01" [0, 1] = wBlocks.flatten := by
  exact ⟨rfl, (claim_C3 wAvail "vid01" [0, 1] wBlocks rfl).1⟩

/-- Claim C4: the row built from the raw entry at 0-based position `i` of a
track has `segmentIndex = i + 1`, `startSeconds` equal to the entry's
start, `endSeconds = startSeconds + durationSeconds` with the duration
defaulting to 0 when the key is absent, text equal to the raw text with
surrounding whitespace stripped, and a deep-link URL that is the canonical
watch URL for the video id with a `t` query parameter equal to the
integer-truncated start second. -/
theorem claim_C4 (vid : String) (sel : AvailableTranscript) (i : ℕ) (st : ℚ)
    (dur : Option ℚ) (tx : String) :
    ∃ r, processEntry vid sel i { start := some st, duration := dur, text := some tx }
        = .ok r ∧
      r.segment_number = i + 1 ∧
      r.start_time_seconds = st ∧
      r.end_time_seconds = st + dur.getD 0 ∧
      r.text = pyStrip tx ∧
      r.youtube_link = "https://www.youtube.com/watch?v=" ++ vid ++ "&t="
        ++ toString (pyInt st) :=
  ⟨_, rfl, rfl, rfl, rfl, rfl, rfl⟩

/-- Claim C10: any exception escaping the per-track fetch handling inside
`extract_transcript` makes the whole call return `[]`, discarding rows
already collected from earlier tracks.  In particular (a) an error anywhere
in the loop yields `[]`; (b) even after a prefix of tracks succeeded with
rows, a later error still yields `[]`; (c) an out-of-range selection index
raises (`IndexError`); (d) a fetched entry with a missing `'start'` or
`'text'` key raises (`KeyError`). -/
theorem claim_C10 (avail : List AvailableTranscript) (vid : String) :
    (∀ (selected : List ℕ) (u : Unit), extractLoop avail vid selected = .error u →
      extract_transcript avail vid selected = []) ∧
    (∀ (pre : List ℕ) (rows : List TranscriptRow) (k : ℕ) (rest : List ℕ),
      extractLoop avail vid pre = .ok rows →
      extractLoop avail vid (k :: rest) = .error () →
      extract_transcript avail vid (pre ++ k :: rest) = []) ∧
    (∀ (k : ℕ) (rest : List ℕ), avail.length ≤ k →
      extractLoop avail vid (k :: rest) = .error ()) ∧
    (∀ (k : ℕ) (sel : AvailableTranscript) (entries : List RawEntry) (rest : List ℕ),
      avail[k]? = some sel → (attemptFetch sel).2 = some entries →
      (∃ e ∈ entries, e.start = none ∨ e.text = none) →
      extractLoop avail vid (k :: rest) = .error ()) := by
  refine ⟨?_, ?_, ?_, ?_⟩
  · intro selected u h
    unfold extract_transcript
    rw [h]
  · intro pre rows k rest hpre herr
    unfold extract_transcript
    rw [extractLoop_append, hpre, herr]
  · intro k rest hk
    have hnone : avail[k]? = none := by
      simp [List.getElem?_eq_none hk]
    simp only [extractLoop]
    rw [hnone]
  · intro k sel entries rest hk hfetch hmal
    have hrows : processTrackRows vid sel = .error () := by
      unfold processTrackRows
      rw [hfetch]
      exact processEntries_error_of_malformed vid sel entries 0 hmal
    simp only [extractLoop]
    rw [hk]
    dsimp only
    rw [hrows]

theorem claim_C10_witness :
    extract_transcript wAvail "vid01" [0, 9] = [] ∧
    extract_transcript wAvail "vid01" [0] ≠ [] := by
  have h := claim_C10 wAvail "vid01"
  have h9 : extractLoop wAvail "vid01" (9 :: ([] : List ℕ)) = .error () :=
    h.2.2.1 9 [] (by decide)
  have h0 : extractLoop wAvail "vid01" [0] = .ok wRowsEn := rfl
  refine ⟨?_, by decide⟩
  have := h.2.1 [0] wRowsEn 9 [] h0 h9
  simpa using this

/-! ## Claims C7-C9: catalog lookup and export formatter -/

lemma partitionCaptions_eq (ts : List ServiceTranscript) :
    partitionCaptions ts =
      ((ts.filter fun t => !t.is_generated).map mkCaptionInfo,
       (ts.filter fun t => t.is_generated).map mkCaptionInfo) := by
  induction ts with
  | nil => rfl
  | cons t ts ih =>
    simp only [partitionCaptions, ih]
    cases hg : t.is_generated <;> simp [List.filter, hg]

/-- Claim C7: the catalog lookup partitions the caption tracks returned by
the external service into manual and auto-generated lists according to each
track's auto-generated flag, preserving the service's native order inside
each list, and any failure of the service call yields two empty lists
instead of a propagated error. -/
theorem claim_C7 (service : String → Except String (List ServiceTranscript))
    (video_id : String) :
    (∀ err, service video_id = .error err →
      check_available_captions service video_id = ([], [])) ∧
    (∀ ts, service video_id = .ok ts →
      (check_available_captions service video_id).1
        = (ts.filter fun t => !t.is_generated).map mkCaptionInfo ∧
      (check_available_captions service video_id).2
        = (ts.filter fun t => t.is_generated).map mkCaptionInfo) := by
  constructor
  · intro err herr
    unfold check_available_captions
    rw [herr]
  · intro ts hts
    unfold check_available_captions
    rw [hts]
    dsimp only
    rw [partitionCaptions_eq]
    exact ⟨rfl, rfl⟩

theorem claim_C7_witness :
    check_available_captions wService "bad" = ([], []) ∧
    (check_available_captions wService "ok").1
      = [{ language := "English", language_code := "en", type := "Manual" }] ∧
    (check_available_captions wService "ok").2
      = [{ language := "Spanish", language_code := "es", type := "Auto-generated" }] := by
  have h1 := (claim_C7 wService "bad").1 "no transcripts were found" rfl
  have h2 := (claim_C7 wService "ok").2
    [{ language := "English", language_code := "en", is_generated := false },
     { language := "Spanish", language_code := "es", is_generated := true }] rfl
  exact ⟨h1, by rw [h2.1]; rfl, by rw [h2.2]; rfl⟩

/-- Claim C8: for every non-empty row list, the three export filenames have
the form `{variantPrefix}_{languageJoin}_{titleSlug}_{timestamp}.csv` with
variant prefixes `full_transcript`, `simple_transcript` and `timeline`,
where languageJoin is the underscore-join of the distinct language codes of
the rows when there are at most 3 of them and `{count}languages` otherwise,
and titleSlug is the caller-supplied title with spaces replaced by
underscores and truncated to 50 characters. -/
theorem claim_C8 (rows : List TranscriptRow) (title now : String)
    (h : rows ≠ []) :
    ∃ outs, save_transcript_options rows title now = some outs ∧
      outs.full.filename = "full_transcript_"
        ++ languageStr (rows.map fun r => r.language) ++ "_"
        ++ cleanTitle title ++ "_" ++ now ++ ".csv" ∧
      outs.simple.filename = "simple_transcript_"
        ++ languageStr (rows.map fun r => r.language) ++ "_"
        ++ cleanTitle title ++ "_" ++ now ++ ".csv" ∧
      outs.timeline.filename = "timeline_"
        ++ languageStr (rows.map fun r => r.language) ++ "_"
        ++ cleanTitle title ++ "_" ++ now ++ ".csv" ∧
      languageStr (rows.map fun r => r.language) =
        (if (dedupFirstAux [] (rows.map fun r => r.language)).length ≤ 3
         then joinUnderscore (dedupFirstAux [] (rows.map fun r => r.language))
         else toString (dedupFirstAux [] (rows.map fun r => r.language)).length
           ++ "languages") ∧
      cleanTitle title
        = ⟨((title.data.map fun c => if c = ' ' then '_' else c).take 50)⟩ ∧
      (cleanTitle title).data.length ≤ 50 := by
  have hne : rows.isEmpty = false := by
    cases rows with
    | nil => exact absurd rfl h
    | cons r rs => rfl
  unfold save_transcript_options
  rw [hne]
  refine ⟨_, rfl, rfl, rfl, rfl, rfl, rfl, ?_⟩
  unfold cleanTitle
  simp

theorem claim_C8_witness :
    (∃ outs, save_transcript_options [mkRowLang "en", mkRowLang "es"]
        "My Title" "20260101_120000" = some outs ∧
      outs.full.filename = "full_transcript_en_es_My_Title_20260101_120000.csv") ∧
    (∃ outs, save_transcript_options
        [mkRowLang "aa", mkRowLang "bb", mkRowLang "cc", mkRowLang "dd"]
        "T" "20260101_120000" = some outs ∧
      outs.full.filename = "full_transcript_4languages_T_20260101_120000.csv") := by
  constructor
  · obtain ⟨outs, hsome, hfull, -⟩ :=
      claim_C8 [mkRowLang "en", mkRowLang "es"] "My Title" "20260101_120000"
        (List.cons_ne_nil _ _)
    exact ⟨outs, hsome, by rw [hfull]; rfl⟩
  · obtain ⟨outs, hsome, hfull, -⟩ :=
      claim_C8 [mkRowLang "aa", mkRowLang "bb", mkRowLang "cc", mkRowLang "dd"]
        "T" "20260101_120000" (List.cons_ne_nil _ _)
    exact ⟨outs, hsome, by rw [hfull]; rfl⟩

/-- Claim C9: on an empty row list the export formatter produces no payload
for any of the three variants and returns the absent value instead. -/
theorem claim_C9 (title now : String) :
    save_transcript_options [] title now = none := rfl

end YTE
